import Mathlib

/-!
# Verification of the tgreports reporting bridge

Shallow embedding of `tgreports/main.py` (module `tgreports`): the payload
normalizer (`dump` / `to_json`), the provenance resolver, the message
composer/dispatcher (`Report._report`), and the severity-named public entry
points (`debug` / `info` / `warning` / `error` / `critical` / `important` /
`request`).

Python data that matters to the module is modelled by `PyVal` (a JSON-ish
value universe plus an opaque constructor for non-serializable objects).
The stdlib pieces the module calls are modelled as follows:

* `json.dumps(v, ensure_ascii=False)` is `dumps` (built on the canonical
  encoder `enc`); it fails -- returns `Option.none`, modelling `TypeError` --
  exactly on values containing a non-serializable object.
* `json.loads` is `loads`, an executable recursive-descent decoder for the
  canonical output format of `enc`; it is used to state the round-trip
  property of the normalizer.
* `traceback.extract_tb(e.__traceback__)` is the `tb` field of `Err`
  (frames outermost-first, exactly as `extract_tb` returns them);
  `"".join(traceback.format_exception(...))` is the opaque `formatted` field.
* The frame that `inspect.stack()[2]` would return is passed in as an
  explicit `Frame` argument, since call-stack reflection has no shallow
  embedding.
* The Telegram transport `self.tg.send` is a function `Nat -> Option String`
  giving for each attempt index `none` (success) or `some msg` (raised
  exception rendered as `msg`).  Local loguru writes are collected in lists.

Machine-level exceptions that the Python code can raise to its caller are
modelled with `Except PyErr`.
-/

/-! ## Generic string helpers (Python semantics, codepoint-based) -/

/-- Python `needle in hay` (contiguous substring test) on char lists. -/
def listContainsSub (needle hay : List Char) : Bool :=
  hay.tails.any (fun t => needle.isPrefixOf t)

/-- Python `needle in hay` for strings. -/
def strContains (needle hay : String) : Bool :=
  listContainsSub needle.data hay.data

/-- Python `s[:n]` (codepoint slice). -/
def strTake (s : String) (n : Nat) : String := String.mk (s.data.take n)

/-- Python `s[n:]` (codepoint slice). -/
def strDrop (s : String) (n : Nat) : String := String.mk (s.data.drop n)

/-- Python `sep.join(parts)`. -/
def joinSep (sep : String) : List String → String
  | [] => ""
  | [x] => x
  | x :: xs => x ++ sep ++ joinSep sep xs

/-- Auxiliary for Python `s.split(c)` (single-character separator). -/
def splitOnCharAux (c : Char) : List Char → List Char → List (List Char)
  | [], cur => [cur.reverse]
  | x :: xs, cur =>
    if x = c then cur.reverse :: splitOnCharAux c xs []
    else splitOnCharAux c xs (x :: cur)

/-- Python `s.split(c)` for a single-character separator. -/
def splitChar (c : Char) (s : String) : List String :=
  (splitOnCharAux c s.data []).map String.mk

/-- Splitting on a character predicate (used to state the amended C7 rule). -/
def splitPredAux (p : Char → Bool) : List Char → List Char → List (List Char)
  | [], cur => [cur.reverse]
  | x :: xs, cur =>
    if p x then cur.reverse :: splitPredAux p xs []
    else splitPredAux p xs (x :: cur)

/-- Split a string at every character satisfying `p`. -/
def splitPred (p : Char → Bool) (s : String) : List String :=
  (splitPredAux p s.data []).map String.mk

/-! ## The Python value universe -/

/-- Model of the Python values the module manipulates.  `vObj` stands for any
object that `json.dumps` rejects with `TypeError` (sets, exceptions, custom
objects, ...); its field is the object's `str()` rendering. -/
inductive PyVal where
  | vNone
  | vBool (b : Bool)
  | vInt (n : Int)
  | vStr (s : String)
  | vList (xs : List PyVal)
  | vDict (kvs : List (String × PyVal))
  | vObj (s : String)
deriving Repr

/-! ## The canonical JSON encoder (`json.dumps(v, ensure_ascii=False)`) -/

/-- The double-quote character. -/
def dquoteC : Char := Char.ofNat 34

/-- The backslash character. -/
def bslashC : Char := Char.ofNat 92

/-- The left-bracket character of a JSON array. -/
def lbrackC : Char := '['

/-- The right-bracket character of a JSON array. -/
def rbrackC : Char := ']'

/-- The opening-brace character of a JSON object. -/
def lbraceC : Char := Char.ofNat 123

/-- The closing-brace character of a JSON object. -/
def rbraceC : Char := Char.ofNat 125

/-- Lowercase hexadecimal digit, as produced by CPython's `'\\u%04x' % n`. -/
def hexDigitC (n : Nat) : Char :=
  if n < 10 then Char.ofNat (48 + n) else Char.ofNat (87 + n)

/-- Four lowercase hex digits of `n` (CPython `'%04x'`). -/
def toHex4 (n : Nat) : List Char :=
  [hexDigitC (n / 4096 % 16), hexDigitC (n / 256 % 16),
   hexDigitC (n / 16 % 16), hexDigitC (n % 16)]

/-- How `json.dumps(..., ensure_ascii=False)` escapes one character of a
string: `"` and `\\` get a backslash, the five short control escapes are
used where they exist, any other control character becomes `\\u00xx`, and
everything else passes through verbatim. -/
def escChar (c : Char) : List Char :=
  if c = dquoteC then [bslashC, dquoteC]
  else if c = bslashC then [bslashC, bslashC]
  else if c = Char.ofNat 10 then [bslashC, 'n']
  else if c = Char.ofNat 13 then [bslashC, 'r']
  else if c = Char.ofNat 9 then [bslashC, 't']
  else if c = Char.ofNat 8 then [bslashC, 'b']
  else if c = Char.ofNat 12 then [bslashC, 'f']
  else if c.toNat < 32 then bslashC :: 'u' :: toHex4 c.toNat
  else [c]

/-- JSON-escaped body of a string (no surrounding quotes). -/
def escBody (cs : List Char) : List Char :=
  cs.foldr (fun c acc => escChar c ++ acc) []

/-- JSON encoding of a string literal, quotes included. -/
def encStr (s : String) : List Char :=
  dquoteC :: escBody s.data ++ [dquoteC]

/-- Decimal digit character. -/
def digitOfNat (n : Nat) : Char := Char.ofNat (48 + n)

/-- Decimal digits of a natural number, most significant first. -/
def natCharsAux (n : Nat) (acc : List Char) : List Char :=
  if n < 10 then digitOfNat n :: acc
  else natCharsAux (n / 10) (digitOfNat (n % 10) :: acc)
termination_by n
decreasing_by exact Nat.div_lt_self (by omega) (by omega)

/-- Decimal digits of a natural number. -/
def natChars (n : Nat) : List Char := natCharsAux n []

/-- CPython's decimal rendering of an `int`. -/
def encInt (n : Int) : List Char :=
  if n < 0 then '-' :: natChars (-n).toNat else natChars n.toNat

mutual

/-- Canonical output of `json.dumps(v, ensure_ascii=False)` (default `", "`
and `": "` separators), as a char list.  Only meaningful on serializable
values; `serOk` guards it in `dumps`. -/
def enc : PyVal → List Char
  | .vNone => ['n', 'u', 'l', 'l']
  | .vBool true => ['t', 'r', 'u', 'e']
  | .vBool false => ['f', 'a', 'l', 's', 'e']
  | .vInt n => encInt n
  | .vStr s => encStr s
  | .vList [] => [lbrackC, rbrackC]
  | .vList (x :: xs) => lbrackC :: encElems x xs ++ [rbrackC]
  | .vDict [] => [lbraceC, rbraceC]
  | .vDict (m :: ms) => lbraceC :: encMems m ms ++ [rbraceC]
  | .vObj _ => []
termination_by v => sizeOf v
decreasing_by all_goals simp_wf

/-- Comma-separated encoding of a non-empty array body. -/
def encElems : PyVal → List PyVal → List Char
  | x, [] => enc x
  | x, y :: ys => enc x ++ ',' :: ' ' :: encElems y ys
termination_by x xs => 1 + sizeOf x + sizeOf xs
decreasing_by all_goals (simp_wf <;> omega)

/-- Comma-separated encoding of a non-empty object body. -/
def encMems : (String × PyVal) → List (String × PyVal) → List Char
  | (k, v), [] => encStr k ++ ':' :: ' ' :: enc v
  | (k, v), y :: ys => encStr k ++ ':' :: ' ' :: enc v ++ ',' :: ' ' :: encMems y ys
termination_by m ms => 1 + sizeOf m + sizeOf ms
decreasing_by all_goals (simp_wf <;> omega)

end

mutual

/-- Whether `json.dumps` accepts the value (no `TypeError`). -/
def serOk : PyVal → Bool
  | .vNone => true
  | .vBool _ => true
  | .vInt _ => true
  | .vStr _ => true
  | .vList xs => serOkList xs
  | .vDict ms => serOkMems ms
  | .vObj _ => false

/-- All elements serializable. -/
def serOkList : List PyVal → Bool
  | [] => true
  | x :: xs => serOk x && serOkList xs

/-- All member values serializable. -/
def serOkMems : List (String × PyVal) → Bool
  | [] => true
  | m :: ms => serOk m.2 && serOkMems ms

end

/-- `json.dumps(v, ensure_ascii=False)`: the encoded text, or `none` for the
`TypeError` raised on non-serializable input. -/
def dumps (v : PyVal) : Option String :=
  if serOk v then some (String.mk (enc v)) else none

/-! ## Python `str()` / `repr()` (only the pieces the module interpolates) -/

/-- Simplified CPython `repr` escaping for characters inside a
single-quoted string repr (backslash, quote and the common controls). -/
def reprEscChar (c : Char) : List Char :=
  if c = bslashC then [bslashC, bslashC]
  else if c = Char.ofNat 39 then [bslashC, Char.ofNat 39]
  else if c = Char.ofNat 10 then [bslashC, 'n']
  else if c = Char.ofNat 13 then [bslashC, 'r']
  else if c = Char.ofNat 9 then [bslashC, 't']
  else [c]

/-- CPython `repr` of a string (single-quoted form). -/
def reprString (s : String) : String :=
  String.mk (Char.ofNat 39 :: s.data.foldr (fun c acc => reprEscChar c ++ acc) [Char.ofNat 39])

mutual

/-- CPython `repr` of a value (containers display their elements by repr). -/
def pyRepr : PyVal → String
  | .vNone => "None"
  | .vBool true => "True"
  | .vBool false => "False"
  | .vInt n => String.mk (encInt n)
  | .vStr s => reprString s
  | .vList xs => "[" ++ pyReprList xs ++ "]"
  | .vDict ms => "\x7b" ++ pyReprMems ms ++ "\x7d"
  | .vObj s => s

/-- Comma-separated element reprs. -/
def pyReprList : List PyVal → String
  | [] => ""
  | [x] => pyRepr x
  | x :: y :: ys => pyRepr x ++ ", " ++ pyReprList (y :: ys)

/-- Comma-separated `key: value` member reprs. -/
def pyReprMems : List (String × PyVal) → String
  | [] => ""
  | [m] => reprString m.1 ++ ": " ++ pyRepr m.2
  | m :: y :: ys => reprString m.1 ++ ": " ++ pyRepr m.2 ++ ", " ++ pyReprMems (y :: ys)

end

/-- CPython `str()` of a value: identity on strings, repr-like elsewhere. -/
def pyStr : PyVal → String
  | .vStr s => s
  | v => pyRepr v

/-! ## The payload normalizer: `to_json` and `dump` (main.py lines 30-55) -/

/-- `to_json(data)`: strings pass through; otherwise `json.dumps`, falling
back to `str(data)` on `TypeError`. -/
def to_json (data : PyVal) : String :=
  match data with
  | .vStr s => s
  | _ =>
    match dumps data with
    | some j => j
    | none => pyStr data

/-- Result type of `dump`: `None`, a plain string, or a dict of rendered
strings. -/
inductive Dumped where
  | nullV
  | strV (s : String)
  | dictV (kvs : List (String × String))
deriving Repr, DecidableEq

/-- `dump(data)`: `None` maps to `None`, non-dicts to `str(data)`, and dicts
to `{k: to_json(v) for k, v in data.items() if v is not None}`. -/
def dump : PyVal → Dumped
  | .vNone => .nullV
  | .vDict kvs =>
    .dictV (kvs.filterMap (fun p =>
      match p.2 with
      | PyVal.vNone => none
      | _ => some (p.1, to_json p.2)))
  | v => .strV (pyStr v)

/-- Entries of a dumped dict (and `[]` for the other shapes). -/
def dumpEntries : Dumped → List (String × String)
  | .dictV kvs => kvs
  | _ => []

/-! ## A JSON decoder (`json.loads`) for the canonical encoder output -/

/-- ASCII decimal digit test. -/
def isDigitC (c : Char) : Bool := 48 ≤ c.toNat && c.toNat ≤ 57

/-- Value of one hexadecimal digit (either case), as in JSON `\uXXXX`. -/
def hexVal (c : Char) : Option Nat :=
  if 48 ≤ c.toNat ∧ c.toNat ≤ 57 then some (c.toNat - 48)
  else if 97 ≤ c.toNat ∧ c.toNat ≤ 102 then some (c.toNat - 87)
  else if 65 ≤ c.toNat ∧ c.toNat ≤ 70 then some (c.toNat - 55)
  else none

/-- Greedy decimal-digit run, accumulating the value read so far. -/
def parseDigitsAux : List Char → Nat → Nat × List Char
  | [], acc => (acc, [])
  | c :: cs, acc =>
    if isDigitC c then parseDigitsAux cs (acc * 10 + (c.toNat - 48))
    else (acc, c :: cs)

/-- JSON string body (input starts after the opening quote); returns the
decoded characters and the input remaining after the closing quote. -/
def parseStrChars : List Char → Option (List Char × List Char)
  | [] => none
  | c :: cs =>
    if c = dquoteC then some ([], cs)
    else if c = bslashC then
      match cs with
      | [] => none
      | e :: cs2 =>
        if e = dquoteC then (parseStrChars cs2).map (fun p => (dquoteC :: p.1, p.2))
        else if e = bslashC then (parseStrChars cs2).map (fun p => (bslashC :: p.1, p.2))
        else if e = '/' then (parseStrChars cs2).map (fun p => ('/' :: p.1, p.2))
        else if e = 'n' then (parseStrChars cs2).map (fun p => (Char.ofNat 10 :: p.1, p.2))
        else if e = 'r' then (parseStrChars cs2).map (fun p => (Char.ofNat 13 :: p.1, p.2))
        else if e = 't' then (parseStrChars cs2).map (fun p => (Char.ofNat 9 :: p.1, p.2))
        else if e = 'b' then (parseStrChars cs2).map (fun p => (Char.ofNat 8 :: p.1, p.2))
        else if e = 'f' then (parseStrChars cs2).map (fun p => (Char.ofNat 12 :: p.1, p.2))
        else if e = 'u' then
          match cs2 with
          | h1 :: h2 :: h3 :: h4 :: cs3 =>
            match hexVal h1, hexVal h2, hexVal h3, hexVal h4 with
            | some a, some b, some c3, some d =>
              (parseStrChars cs3).map
                (fun p => (Char.ofNat (((a * 16 + b) * 16 + c3) * 16 + d) :: p.1, p.2))
            | _, _, _, _ => none
          | _ => none
        else none
    else if c.toNat < 32 then none
    else (parseStrChars cs).map (fun p => (c :: p.1, p.2))
termination_by l => l.length
decreasing_by all_goals (simp_wf <;> omega)

mutual

/-- Fuel-indexed recursive-descent JSON value decoder.  It accepts exactly
the canonical format `enc` produces (`", "` and `": "` separators), which is
all the round-trip statement needs. -/
def parseJ : Nat → List Char → Option (PyVal × List Char)
  | 0, _ => none
  | _ + 1, [] => none
  | fuel + 1, c :: cs =>
    if c = 'n' then
      match cs with
      | 'u' :: 'l' :: 'l' :: r => some (.vNone, r)
      | _ => none
    else if c = 't' then
      match cs with
      | 'r' :: 'u' :: 'e' :: r => some (.vBool true, r)
      | _ => none
    else if c = 'f' then
      match cs with
      | 'a' :: 'l' :: 's' :: 'e' :: r => some (.vBool false, r)
      | _ => none
    else if c = dquoteC then
      (parseStrChars cs).map (fun p => (.vStr (String.mk p.1), p.2))
    else if c = lbrackC then
      match cs with
      | c2 :: r2 =>
        if c2 = rbrackC then some (.vList [], r2)
        else (parseElems fuel (c2 :: r2)).map (fun p => (.vList p.1, p.2))
      | [] => none
    else if c = lbraceC then
      match cs with
      | c2 :: r2 =>
        if c2 = rbraceC then some (.vDict [], r2)
        else (parseMems fuel (c2 :: r2)).map (fun p => (.vDict p.1, p.2))
      | [] => none
    else if c = '-' then
      match cs with
      | d :: _ =>
        if isDigitC d then
          match parseDigitsAux cs 0 with
          | (n, r) => some (.vInt (-(n : Int)), r)
        else none
      | [] => none
    else if isDigitC c then
      match parseDigitsAux (c :: cs) 0 with
      | (n, r) => some (.vInt (n : Int), r)
    else none
termination_by fuel _ => (fuel, 0)

/-- Elements of a non-empty JSON array, consuming the closing `]`. -/
def parseElems : Nat → List Char → Option (List PyVal × List Char)
  | 0, _ => none
  | fuel + 1, l =>
    match parseJ (fuel + 1) l with
    | none => none
    | some (v, r) =>
      match r with
      | ',' :: ' ' :: r2 =>
        (parseElems fuel r2).map (fun p => (v :: p.1, p.2))
      | rb :: r2 => if rb = rbrackC then some ([v], r2) else none
      | [] => none
termination_by fuel _ => (fuel, 1)

/-- Members of a non-empty JSON object, consuming the closing brace. -/
def parseMems : Nat → List Char → Option (List (String × PyVal) × List Char)
  | 0, _ => none
  | fuel + 1, l =>
    match l with
    | c :: cs =>
      if c = dquoteC then
        match parseStrChars cs with
        | some (k, r) =>
          match r with
          | ':' :: ' ' :: r2 =>
            match parseJ (fuel + 1) r2 with
            | some (v, r3) =>
              match r3 with
              | ',' :: ' ' :: r4 =>
                (parseMems fuel r4).map (fun p => ((String.mk k, v) :: p.1, p.2))
              | rb :: r4 => if rb = rbraceC then some ([(String.mk k, v)], r4) else none
              | [] => none
            | none => none
          | _ => none
        | none => none
      else none
    | [] => none
termination_by fuel _ => (fuel, 2)

end

mutual

/-- Fuel sufficient for `parseJ` on the encoding of a value. -/
def fuelOf : PyVal → Nat
  | .vList [] => 1
  | .vList (x :: xs) => fuelElems x xs + 1
  | .vDict [] => 1
  | .vDict (m :: ms) => fuelMems m ms + 1
  | _ => 1
termination_by v => sizeOf v
decreasing_by all_goals simp_wf

/-- Fuel sufficient for `parseElems` on a non-empty array body. -/
def fuelElems : PyVal → List PyVal → Nat
  | x, [] => fuelOf x
  | x, y :: ys => max (fuelOf x) (fuelElems y ys + 1)
termination_by x xs => 1 + sizeOf x + sizeOf xs
decreasing_by all_goals (simp_wf <;> omega)

/-- Fuel sufficient for `parseMems` on a non-empty object body. -/
def fuelMems : (String × PyVal) → List (String × PyVal) → Nat
  | (_, v), [] => fuelOf v
  | (_, v), y :: ys => max (fuelOf v) (fuelMems y ys + 1)
termination_by m ms => 1 + sizeOf m + sizeOf ms
decreasing_by all_goals (simp_wf <;> omega)

end

/-- `json.loads(s)`, restricted to the canonical encoder format: decode one
value and require the input to be fully consumed. -/
def loads (s : String) : Option PyVal :=
  match parseJ (s.data.length + 1) s.data with
  | some (v, []) => some v
  | _ => none

/-! ## Round-trip lemmas: decimal digits -/

/-- The input head (if any) is not a decimal digit, so a greedy digit run
stops exactly there. -/
def headNotDigit : List Char → Prop
  | [] => True
  | c :: _ => isDigitC c = false

/-- One decimal-accumulation step. -/
def stepDigit (acc : Nat) (c : Char) : Nat := acc * 10 + (c.toNat - 48)

theorem digitOfNat_toNat (m : Nat) (h : m < 10) : (digitOfNat m).toNat = 48 + m := by
  interval_cases m <;> decide

theorem isDigitC_digitOfNat (m : Nat) (h : m < 10) : isDigitC (digitOfNat m) = true := by
  interval_cases m <;> decide

theorem natCharsAux_eq (n : Nat) : ∀ acc, natCharsAux n acc = natChars n ++ acc := by
  induction n using Nat.strong_induction_on with
  | _ n ih =>
    intro acc
    by_cases h : n < 10
    · have hstep : ∀ a, natCharsAux n a = digitOfNat n :: a := by
        intro a
        rw [natCharsAux, if_pos h]
      rw [hstep acc, natChars, hstep []]
      rfl
    · have hstep : ∀ a, natCharsAux n a = natCharsAux (n / 10) (digitOfNat (n % 10) :: a) := by
        intro a
        rw [natCharsAux, if_neg h]
      have hdiv := Nat.div_lt_self (show 0 < n by omega) (show 1 < 10 by omega)
      rw [hstep acc, ih (n / 10) hdiv]
      conv_rhs => rw [natChars, hstep [], ih (n / 10) hdiv]
      simp

theorem natChars_cases (n : Nat) :
    (n < 10 ∧ natChars n = [digitOfNat n]) ∨
      (10 ≤ n ∧ natChars n = natChars (n / 10) ++ [digitOfNat (n % 10)]) := by
  by_cases h : n < 10
  · exact Or.inl ⟨h, by rw [natChars, natCharsAux, if_pos h]⟩
  · refine Or.inr ⟨by omega, ?_⟩
    rw [natChars, natCharsAux, if_neg h, natCharsAux_eq]

theorem natChars_ne_nil (n : Nat) : natChars n ≠ [] := by
  rcases natChars_cases n with ⟨_, h⟩ | ⟨_, h⟩ <;> simp [h]

theorem natChars_digits (n : Nat) : ∀ c ∈ natChars n, isDigitC c = true := by
  induction n using Nat.strong_induction_on with
  | _ n ih =>
    rcases natChars_cases n with ⟨h, hn⟩ | ⟨h, hn⟩
    · rw [hn]
      intro c hc
      rw [List.mem_singleton] at hc
      rw [hc]
      exact isDigitC_digitOfNat n h
    · rw [hn]
      intro c hc
      rcases List.mem_append.1 hc with hc | hc
      · exact ih (n / 10) (Nat.div_lt_self (by omega) (by omega)) c hc
      · rw [List.mem_singleton] at hc
        rw [hc]
        exact isDigitC_digitOfNat (n % 10) (Nat.mod_lt _ (by omega))

theorem parseDigitsAux_append (ds : List Char) :
    ∀ rest acc, (∀ c ∈ ds, isDigitC c = true) → headNotDigit rest →
      parseDigitsAux (ds ++ rest) acc = (ds.foldl stepDigit acc, rest) := by
  induction ds with
  | nil =>
    intro rest acc _ hr
    match rest with
    | [] => rfl
    | c :: cs =>
      rw [headNotDigit] at hr
      simp [parseDigitsAux, hr]
  | cons d ds ih =>
    intro rest acc hds hr
    have hd : isDigitC d = true := hds d (List.mem_cons_self d ds)
    rw [List.cons_append, parseDigitsAux, if_pos hd, List.foldl_cons,
      ih rest _ (fun c hc => hds c (List.mem_cons_of_mem d hc)) hr]
    rfl

theorem foldl_natChars (n : Nat) :
    ∀ acc, (natChars n).foldl stepDigit acc = acc * 10 ^ (natChars n).length + n := by
  induction n using Nat.strong_induction_on with
  | _ n ih =>
    intro acc
    rcases natChars_cases n with ⟨h, hn⟩ | ⟨h, hn⟩
    · rw [hn]
      simp [stepDigit, digitOfNat_toNat n h]
    · rw [hn, List.foldl_append,
        ih (n / 10) (Nat.div_lt_self (by omega) (by omega)) acc]
      simp [stepDigit, digitOfNat_toNat (n % 10) (Nat.mod_lt _ (by omega))]
      rw [Nat.pow_succ]
      have : acc * (10 ^ (natChars (n / 10)).length * 10) =
          acc * 10 ^ (natChars (n / 10)).length * 10 := by ring
      rw [this]
      omega

theorem parseDigits_natChars (n : Nat) (rest : List Char) (hr : headNotDigit rest) :
    parseDigitsAux (natChars n ++ rest) 0 = (n, rest) := by
  rw [parseDigitsAux_append (natChars n) rest 0 (natChars_digits n) hr,
    foldl_natChars]
  simp

/-! ## Round-trip lemmas: JSON strings -/

theorem hexVal_hexDigitC (m : Nat) (h : m < 16) : hexVal (hexDigitC m) = some m := by
  interval_cases m <;> decide

theorem escBody_cons (c : Char) (cs : List Char) :
    escBody (c :: cs) = escChar c ++ escBody cs := rfl

theorem parseStrChars_u (v : Nat) (hv : v < 32) (tail : List Char) :
    parseStrChars (bslashC :: 'u' :: (toHex4 v ++ tail)) =
      (parseStrChars tail).map (fun p => (Char.ofNat v :: p.1, p.2)) := by
  rw [toHex4]
  simp only [List.cons_append, List.nil_append]
  rw [parseStrChars.eq_def]
  simp +decide only [reduceIte, reduceCtorEq]
  rw [hexVal_hexDigitC _ (by omega), hexVal_hexDigitC _ (by omega),
    hexVal_hexDigitC _ (by omega), hexVal_hexDigitC _ (by omega)]
  have h : ((v / 4096 % 16 * 16 + v / 256 % 16) * 16 + v / 16 % 16) * 16 + v % 16 = v := by
    omega
  simp [h]

theorem parseStrChars_dquote (rest : List Char) :
    parseStrChars (dquoteC :: rest) = some ([], rest) := by
  rw [parseStrChars.eq_def]
  simp +decide only [reduceIte, reduceCtorEq]

theorem parseStrChars_plain (c : Char) (h1 : ¬c = dquoteC) (h2 : ¬c = bslashC)
    (h8 : ¬c.toNat < 32) (l : List Char) :
    parseStrChars (c :: l) = (parseStrChars l).map (fun p => (c :: p.1, p.2)) := by
  rw [parseStrChars.eq_def]
  simp only [h1, h2, h8, if_false, reduceIte]

theorem parseStrChars_escBody (s : List Char) :
    ∀ rest, parseStrChars (escBody s ++ dquoteC :: rest) = some (s, rest) := by
  induction s with
  | nil =>
    intro rest
    rw [escBody]
    simp only [List.foldr_nil, List.nil_append]
    exact parseStrChars_dquote rest
  | cons c cs ih =>
    intro rest
    rw [escBody_cons, List.append_assoc]
    by_cases h1 : c = dquoteC
    · subst h1
      rw [escChar]
      simp +decide only [reduceIte]
      simp only [List.cons_append, List.nil_append]
      rw [parseStrChars.eq_def]
      simp +decide only [reduceIte, reduceCtorEq]
      rw [ih rest]
      rfl
    · by_cases h2 : c = bslashC
      · subst h2
        rw [escChar]
        simp +decide only [reduceIte]
        simp only [List.cons_append, List.nil_append]
        rw [parseStrChars.eq_def]
        simp +decide only [reduceIte, reduceCtorEq]
        rw [ih rest]
        rfl
      · by_cases h3 : c = Char.ofNat 10
        · subst h3
          rw [escChar]
          simp +decide only [reduceIte, reduceCtorEq]
          simp only [List.cons_append, List.nil_append]
          rw [parseStrChars.eq_def]
          simp +decide only [reduceIte, reduceCtorEq]
          rw [ih rest]
          rfl
        · by_cases h4 : c = Char.ofNat 13
          · subst h4
            rw [escChar]
            simp +decide only [reduceIte, reduceCtorEq]
            simp only [List.cons_append, List.nil_append]
            rw [parseStrChars.eq_def]
            simp +decide only [reduceIte, reduceCtorEq]
            rw [ih rest]
            rfl
          · by_cases h5 : c = Char.ofNat 9
            · subst h5
              rw [escChar]
              simp +decide only [reduceIte, reduceCtorEq]
              simp only [List.cons_append, List.nil_append]
              rw [parseStrChars.eq_def]
              simp +decide only [reduceIte, reduceCtorEq]
              rw [ih rest]
              rfl
            · by_cases h6 : c = Char.ofNat 8
              · subst h6
                rw [escChar]
                simp +decide only [reduceIte, reduceCtorEq]
                simp only [List.cons_append, List.nil_append]
                rw [parseStrChars.eq_def]
                simp +decide only [reduceIte, reduceCtorEq]
                rw [ih rest]
                rfl
              · by_cases h7 : c = Char.ofNat 12
                · subst h7
                  rw [escChar]
                  simp +decide only [reduceIte, reduceCtorEq]
                  simp only [List.cons_append, List.nil_append]
                  rw [parseStrChars.eq_def]
                  simp +decide only [reduceIte, reduceCtorEq]
                  rw [ih rest]
                  rfl
                · by_cases h8 : c.toNat < 32
                  · rw [escChar, if_neg h1, if_neg h2, if_neg h3, if_neg h4, if_neg h5,
                      if_neg h6, if_neg h7, if_pos h8]
                    simp only [List.cons_append, List.append_assoc]
                    rw [parseStrChars_u c.toNat h8, ih rest]
                    simp
                  · rw [escChar, if_neg h1, if_neg h2, if_neg h3, if_neg h4, if_neg h5,
                      if_neg h6, if_neg h7, if_neg h8]
                    simp only [List.cons_append, List.nil_append]
                    rw [parseStrChars_plain c h1 h2 h8, ih rest]
                    rfl

/-! ## Helper lemmas for the value round-trip -/

theorem digit_not_kw (c : Char) (hd : isDigitC c = true) :
    ¬c = 'n' ∧ ¬c = 't' ∧ ¬c = 'f' ∧ ¬c = dquoteC ∧ ¬c = lbrackC ∧ ¬c = lbraceC ∧ ¬c = '-' := by
  refine ⟨?_, ?_, ?_, ?_, ?_, ?_, ?_⟩ <;>
    (intro h; subst h; exact absurd hd (by decide))

theorem digit_not_rbrack (c : Char) (hd : isDigitC c = true) : ¬c = rbrackC := by
  intro h
  subst h
  exact absurd hd (by decide)

theorem digit_not_rbrace (c : Char) (hd : isDigitC c = true) : ¬c = rbraceC := by
  intro h
  subst h
  exact absurd hd (by decide)

theorem natChars_cons (n : Nat) :
    ∃ c0 t0, natChars n = c0 :: t0 ∧ isDigitC c0 = true := by
  cases h : natChars n with
  | nil => exact absurd h (natChars_ne_nil n)
  | cons a b =>
    refine ⟨a, b, rfl, ?_⟩
    exact natChars_digits n a (by rw [h]; exact List.mem_cons_self a b)

theorem enc_head_ne (v : PyVal) (hs : serOk v = true) :
    ∃ c0 t0, enc v = c0 :: t0 ∧ ¬c0 = rbrackC ∧ ¬c0 = rbraceC := by
  cases v with
  | vNone =>
    refine ⟨'n', ['u', 'l', 'l'], ?_, by decide, by decide⟩
    rw [enc]
  | vBool b =>
    cases b
    · refine ⟨'f', ['a', 'l', 's', 'e'], ?_, by decide, by decide⟩
      rw [enc]
    · refine ⟨'t', ['r', 'u', 'e'], ?_, by decide, by decide⟩
      rw [enc]
  | vInt n =>
    by_cases hn : n < 0
    · refine ⟨'-', natChars (-n).toNat, ?_, by decide, by decide⟩
      rw [enc, encInt, if_pos hn]
    · obtain ⟨c0, t0, hc, hd⟩ := natChars_cons n.toNat
      refine ⟨c0, t0, ?_, digit_not_rbrack c0 hd, digit_not_rbrace c0 hd⟩
      rw [enc, encInt, if_neg hn, hc]
  | vStr s =>
    refine ⟨dquoteC, escBody s.data ++ [dquoteC], ?_, by decide, by decide⟩
    rw [enc, encStr]
    simp
  | vList xs =>
    cases xs with
    | nil =>
      refine ⟨lbrackC, [rbrackC], ?_, by decide, by decide⟩
      rw [enc]
    | cons x xs =>
      refine ⟨lbrackC, encElems x xs ++ [rbrackC], ?_, by decide, by decide⟩
      rw [enc]
      simp
  | vDict ms =>
    cases ms with
    | nil =>
      refine ⟨lbraceC, [rbraceC], ?_, by decide, by decide⟩
      rw [enc]
    | cons m ms =>
      refine ⟨lbraceC, encMems m ms ++ [rbraceC], ?_, by decide, by decide⟩
      rw [enc]
      simp
  | vObj s => exact absurd hs (by simp [serOk])

theorem encElems_split (x : PyVal) (xs : List PyVal) :
    ∃ t, encElems x xs = enc x ++ t := by
  cases xs with
  | nil => exact ⟨[], by rw [encElems, List.append_nil]⟩
  | cons y ys => exact ⟨',' :: ' ' :: encElems y ys, by rw [encElems]⟩

theorem encMems_head (m : String × PyVal) (ms : List (String × PyVal)) :
    ∃ t, encMems m ms = dquoteC :: t := by
  obtain ⟨k, v⟩ := m
  cases ms with
  | nil =>
    refine ⟨escBody k.data ++ [dquoteC] ++ ':' :: ' ' :: enc v, ?_⟩
    rw [encMems, encStr]
    simp
  | cons y ys =>
    refine ⟨escBody k.data ++ [dquoteC] ++ ':' :: ' ' :: enc v ++ ',' :: ' ' :: encMems y ys, ?_⟩
    rw [encMems, encStr]
    simp

theorem fuelOf_pos (v : PyVal) : 1 ≤ fuelOf v := by
  cases v with
  | vList xs => cases xs <;> simp [fuelOf]
  | vDict ms => cases ms <;> simp [fuelOf]
  | vNone => simp [fuelOf]
  | vBool b => simp [fuelOf]
  | vInt n => simp [fuelOf]
  | vStr s => simp [fuelOf]
  | vObj s => simp [fuelOf]

theorem fuelElems_pos (x : PyVal) (xs : List PyVal) : 1 ≤ fuelElems x xs := by
  cases xs with
  | nil => rw [fuelElems]; exact fuelOf_pos x
  | cons y ys =>
    rw [fuelElems]
    have := fuelOf_pos x
    omega

theorem fuelMems_pos (m : String × PyVal) (ms : List (String × PyVal)) :
    1 ≤ fuelMems m ms := by
  obtain ⟨k, v⟩ := m
  cases ms with
  | nil => rw [fuelMems]; exact fuelOf_pos v
  | cons y ys =>
    rw [fuelMems]
    have := fuelOf_pos v
    omega

theorem encMems_nil (m : String × PyVal) :
    encMems m [] = encStr m.1 ++ ':' :: ' ' :: enc m.2 := by
  obtain ⟨k, v⟩ := m
  rw [encMems]

theorem encMems_cons (m y : String × PyVal) (ys : List (String × PyVal)) :
    encMems m (y :: ys) =
      encStr m.1 ++ ':' :: ' ' :: enc m.2 ++ ',' :: ' ' :: encMems y ys := by
  obtain ⟨k, v⟩ := m
  rw [encMems]

theorem fuelMems_nil (m : String × PyVal) : fuelMems m [] = fuelOf m.2 := by
  obtain ⟨k, v⟩ := m
  rw [fuelMems]

theorem fuelMems_cons (m y : String × PyVal) (ys : List (String × PyVal)) :
    fuelMems m (y :: ys) = max (fuelOf m.2) (fuelMems y ys + 1) := by
  obtain ⟨k, v⟩ := m
  rw [fuelMems]

mutual

theorem parseJ_enc (v : PyVal) (f : Nat) (rest : List Char)
    (hs : serOk v = true) (hf : fuelOf v ≤ f) (hr : headNotDigit rest) :
    parseJ f (enc v ++ rest) = some (v, rest) := by
  obtain ⟨g, rfl⟩ : ∃ g, f = g + 1 := ⟨f - 1, by have := fuelOf_pos v; omega⟩
  cases v with
  | vNone =>
    rw [enc]
    simp only [List.cons_append, List.nil_append]
    rw [parseJ.eq_def]
    simp +decide only [reduceIte, reduceCtorEq]
  | vBool b =>
    cases b
    · rw [enc]
      simp only [List.cons_append, List.nil_append]
      rw [parseJ.eq_def]
      simp +decide only [reduceIte, reduceCtorEq]
    · rw [enc]
      simp only [List.cons_append, List.nil_append]
      rw [parseJ.eq_def]
      simp +decide only [reduceIte, reduceCtorEq]
  | vStr s =>
    rw [enc, encStr]
    simp only [List.cons_append, List.append_assoc, List.singleton_append, List.nil_append]
    rw [parseJ.eq_def]
    simp +decide only [reduceIte, reduceCtorEq]
    rw [parseStrChars_escBody]
    rfl
  | vInt n =>
    rw [enc, encInt]
    by_cases hn : n < 0
    · rw [if_pos hn]
      obtain ⟨c0, t0, hnc, hd⟩ := natChars_cons (-n).toNat
      rw [hnc]
      simp only [List.cons_append]
      rw [parseJ.eq_def]
      simp +decide only [reduceIte, reduceCtorEq]
      rw [if_pos hd]
      rw [show c0 :: (t0 ++ rest) = natChars (-n).toNat ++ rest from by rw [hnc]; simp,
        parseDigits_natChars _ rest hr]
      have h : (-(((-n).toNat : Int))) = n := by omega
      rw [h]
    · rw [if_neg hn]
      obtain ⟨c0, t0, hnc, hd⟩ := natChars_cons n.toNat
      obtain ⟨k1, k2, k3, k4, k5, k6, k7⟩ := digit_not_kw c0 hd
      rw [hnc]
      simp only [List.cons_append]
      rw [parseJ.eq_def]
      simp only [k1, k2, k3, k4, k5, k6, k7, if_false, reduceIte, hd, if_true]
      rw [show c0 :: (t0 ++ rest) = natChars n.toNat ++ rest from by rw [hnc]; simp,
        parseDigits_natChars _ rest hr]
      have h : ((n.toNat : Int)) = n := by omega
      rw [h]
  | vList xs =>
    cases xs with
    | nil =>
      rw [enc]
      simp only [List.cons_append, List.nil_append]
      rw [parseJ.eq_def]
      simp +decide only [reduceIte, reduceCtorEq]
    | cons x xs =>
      have hsx : serOk x = true ∧ serOkList xs = true := by
        rw [serOk, serOkList] at hs
        simp only [Bool.and_eq_true] at hs
        exact hs
      have hfe : fuelElems x xs ≤ g := by
        rw [fuelOf] at hf
        omega
      rw [enc]
      simp only [List.cons_append, List.append_assoc, List.singleton_append, List.nil_append]
      rw [parseJ.eq_def]
      simp +decide only [reduceIte, reduceCtorEq]
      obtain ⟨c0, t0, hvx, hc1, hc2⟩ := enc_head_ne x hsx.1
      obtain ⟨tl, htl⟩ := encElems_split x xs
      rw [htl, hvx]
      simp only [List.cons_append, List.append_assoc, List.nil_append]
      rw [if_neg hc1]
      rw [show c0 :: (t0 ++ (tl ++ rbrackC :: rest)) = encElems x xs ++ rbrackC :: rest from by
        rw [htl, hvx]; simp]
      rw [parseElems_enc x xs g rest hsx.1 hsx.2 hfe]
      rfl
  | vDict ms =>
    cases ms with
    | nil =>
      rw [enc]
      simp only [List.cons_append, List.nil_append]
      rw [parseJ.eq_def]
      simp +decide only [reduceIte, reduceCtorEq]
    | cons m ms =>
      have hsm : serOk m.2 = true ∧ serOkMems ms = true := by
        rw [serOk, serOkMems] at hs
        simp only [Bool.and_eq_true] at hs
        exact hs
      have hfm : fuelMems m ms ≤ g := by
        rw [fuelOf] at hf
        omega
      rw [enc]
      simp only [List.cons_append, List.append_assoc, List.singleton_append, List.nil_append]
      rw [parseJ.eq_def]
      simp +decide only [reduceIte, reduceCtorEq]
      obtain ⟨tl, htl⟩ := encMems_head m ms
      rw [htl]
      simp only [List.cons_append, List.append_assoc, List.nil_append]
      rw [if_neg (by decide : ¬dquoteC = rbraceC)]
      rw [show dquoteC :: (tl ++ rbraceC :: rest) = encMems m ms ++ rbraceC :: rest from by
        rw [htl]; simp]
      rw [parseMems_enc m ms g rest hsm.1 hsm.2 hfm]
      rfl
  | vObj s => exact absurd hs (by simp [serOk])
termination_by (sizeOf v, 0)

theorem parseElems_enc (x : PyVal) (xs : List PyVal) (f : Nat) (rest : List Char)
    (hsx : serOk x = true) (hxs : serOkList xs = true) (hf : fuelElems x xs ≤ f) :
    parseElems f (encElems x xs ++ rbrackC :: rest) = some (x :: xs, rest) := by
  obtain ⟨g, rfl⟩ : ∃ g, f = g + 1 := ⟨f - 1, by have := fuelElems_pos x xs; omega⟩
  cases xs with
  | nil =>
    have hfx : fuelOf x ≤ g + 1 := by
      rw [fuelElems] at hf
      omega
    simp only [show rbrackC = ']' from rfl]
    rw [encElems]
    rw [parseElems.eq_def]
    simp +decide only [reduceIte, reduceCtorEq]
    rw [parseJ_enc x (g + 1) (']' :: rest) hsx hfx (by rw [headNotDigit]; decide)]
    simp +decide only [reduceIte, reduceCtorEq]
    split
    · rename_i r2 heq
      simp +decide at heq
    · rename_i rb r2 heq
      simp only [List.cons.injEq] at heq
      obtain ⟨h1, h2⟩ := heq
      subst h1
      subst h2
      rw [if_pos (by decide : (']' : Char) = rbrackC)]
    · rename_i heq
      simp at heq
  | cons y ys =>
    have hsy : serOk y = true ∧ serOkList ys = true := by
      rw [serOkList] at hxs
      simp only [Bool.and_eq_true] at hxs
      exact hxs
    have hmax : fuelOf x ≤ g + 1 ∧ fuelElems y ys + 1 ≤ g + 1 := by
      rw [fuelElems] at hf
      exact ⟨le_trans (Nat.le_max_left _ _) hf, le_trans (Nat.le_max_right _ _) hf⟩
    rw [encElems]
    simp only [List.cons_append, List.append_assoc, List.nil_append]
    rw [parseElems.eq_def]
    simp +decide only [reduceIte, reduceCtorEq]
    rw [parseJ_enc x (g + 1) (',' :: ' ' :: (encElems y ys ++ rbrackC :: rest)) hsx hmax.1
      (by rw [headNotDigit]; decide)]
    simp +decide only [reduceIte, reduceCtorEq]
    rw [parseElems_enc y ys g rest hsy.1 hsy.2 (by omega)]
    rfl
termination_by (1 + sizeOf x + sizeOf xs, 0)

theorem parseMems_enc (m : String × PyVal) (ms : List (String × PyVal)) (f : Nat)
    (rest : List Char) (hsm : serOk m.2 = true) (hms : serOkMems ms = true)
    (hf : fuelMems m ms ≤ f) :
    parseMems f (encMems m ms ++ rbraceC :: rest) = some (m :: ms, rest) := by
  obtain ⟨g, rfl⟩ : ∃ g, f = g + 1 := ⟨f - 1, by have := fuelMems_pos m ms; omega⟩
  cases ms with
  | nil =>
    have hfv : fuelOf m.2 ≤ g + 1 := by
      rw [fuelMems_nil] at hf
      omega
    simp only [show rbraceC = '\x7d' from rfl]
    rw [encMems_nil, encStr]
    simp only [List.cons_append, List.append_assoc, List.singleton_append, List.nil_append]
    rw [parseMems.eq_def]
    simp +decide only [reduceIte, reduceCtorEq]
    rw [parseStrChars_escBody]
    simp only [List.nil_append]
    rw [parseJ_enc m.2 (g + 1) ('\x7d' :: rest) hsm hfv (by rw [headNotDigit]; decide)]
    simp +decide only [reduceIte, reduceCtorEq]
    split
    · rename_i r2 heq
      simp +decide at heq
    · rename_i rb r2 heq
      simp only [List.cons.injEq] at heq
      obtain ⟨h1, h2⟩ := heq
      subst h1
      subst h2
      rw [if_pos (by decide : ('\x7d' : Char) = rbraceC)]
    · rename_i heq
      simp at heq
  | cons y ys =>
    have hsy : serOk y.2 = true ∧ serOkMems ys = true := by
      rw [serOkMems] at hms
      simp only [Bool.and_eq_true] at hms
      exact hms
    have hmax : fuelOf m.2 ≤ g + 1 ∧ fuelMems y ys + 1 ≤ g + 1 := by
      rw [fuelMems_cons] at hf
      exact ⟨le_trans (Nat.le_max_left _ _) hf, le_trans (Nat.le_max_right _ _) hf⟩
    rw [encMems_cons, encStr]
    simp only [List.cons_append, List.append_assoc, List.singleton_append, List.nil_append]
    rw [parseMems.eq_def]
    simp +decide only [reduceIte, reduceCtorEq]
    rw [parseStrChars_escBody]
    simp only [List.nil_append]
    rw [parseJ_enc m.2 (g + 1) (',' :: ' ' :: (encMems y ys ++ rbraceC :: rest)) hsm hmax.1
      (by rw [headNotDigit]; decide)]
    simp +decide only [reduceIte, reduceCtorEq]
    rw [parseMems_enc y ys g rest hsy.1 hsy.2 (by omega)]
    rfl
termination_by (1 + sizeOf m + sizeOf ms, 0)
decreasing_by
  all_goals apply Prod.Lex.left
  all_goals
    have hm : sizeOf m.2 < sizeOf m := by
      obtain ⟨a, b⟩ := m
      simp
      try omega
  all_goals try subst ms
  all_goals try simp
  all_goals try omega

end

/-! ## Enough fuel fits in the encoding length, and the round trip through
`loads` -/

theorem encInt_len_pos (n : Int) : 1 ≤ (encInt n).length := by
  rw [encInt]
  by_cases hn : n < 0
  · rw [if_pos hn]
    simp
  · rw [if_neg hn]
    have h := natChars_ne_nil n.toNat
    cases hc : natChars n.toNat with
    | nil => exact absurd hc h
    | cons a b => simp [hc]

mutual

theorem fuelOf_le_enc (v : PyVal) (hs : serOk v = true) : fuelOf v ≤ (enc v).length := by
  cases v with
  | vNone => simp only [fuelOf]; rw [enc]; simp
  | vBool b => cases b <;> (simp only [fuelOf]; rw [enc]; simp)
  | vInt n =>
    simp only [fuelOf]
    rw [enc]
    exact encInt_len_pos n
  | vStr s =>
    simp only [fuelOf]
    rw [enc, encStr]
    simp
  | vList xs =>
    cases xs with
    | nil => rw [fuelOf, enc]; simp
    | cons x xs =>
      have hsx : serOk x = true ∧ serOkList xs = true := by
        rw [serOk, serOkList] at hs
        simp only [Bool.and_eq_true] at hs
        exact hs
      have h := fuelElems_le_enc x xs hsx.1 hsx.2
      rw [fuelOf, enc]
      simp only [List.length_cons, List.length_append, List.length_singleton]
      omega
  | vDict ms =>
    cases ms with
    | nil => rw [fuelOf, enc]; simp
    | cons m ms =>
      have hsm : serOk m.2 = true ∧ serOkMems ms = true := by
        rw [serOk, serOkMems] at hs
        simp only [Bool.and_eq_true] at hs
        exact hs
      have h := fuelMems_le_enc m ms hsm.1 hsm.2
      rw [fuelOf, enc]
      simp only [List.length_cons, List.length_append, List.length_singleton]
      omega
  | vObj s => exact absurd hs (by simp [serOk])
termination_by sizeOf v

theorem fuelElems_le_enc (x : PyVal) (xs : List PyVal)
    (hsx : serOk x = true) (hxs : serOkList xs = true) :
    fuelElems x xs ≤ (encElems x xs).length + 1 := by
  cases xs with
  | nil =>
    rw [fuelElems, encElems]
    have := fuelOf_le_enc x hsx
    omega
  | cons y ys =>
    have hsy : serOk y = true ∧ serOkList ys = true := by
      rw [serOkList] at hxs
      simp only [Bool.and_eq_true] at hxs
      exact hxs
    have h1 := fuelOf_le_enc x hsx
    have h2 := fuelElems_le_enc y ys hsy.1 hsy.2
    rw [fuelElems, encElems]
    simp only [List.length_append, List.length_cons]
    rw [Nat.max_le]
    omega
termination_by 1 + sizeOf x + sizeOf xs

theorem fuelMems_le_enc (m : String × PyVal) (ms : List (String × PyVal))
    (hsm : serOk m.2 = true) (hms : serOkMems ms = true) :
    fuelMems m ms ≤ (encMems m ms).length + 1 := by
  cases ms with
  | nil =>
    rw [fuelMems_nil, encMems_nil]
    have := fuelOf_le_enc m.2 hsm
    simp only [List.length_append, List.length_cons]
    omega
  | cons y ys =>
    have hsy : serOk y.2 = true ∧ serOkMems ys = true := by
      rw [serOkMems] at hms
      simp only [Bool.and_eq_true] at hms
      exact hms
    have h1 := fuelOf_le_enc m.2 hsm
    have h2 := fuelMems_le_enc y ys hsy.1 hsy.2
    rw [fuelMems_cons, encMems_cons]
    simp only [List.length_append, List.length_cons]
    rw [Nat.max_le]
    omega
termination_by 1 + sizeOf m + sizeOf ms
decreasing_by
  all_goals
    have hm : sizeOf m.2 < sizeOf m := by
      obtain ⟨a, b⟩ := m
      simp
      try omega
  all_goals try subst ms
  all_goals try simp
  all_goals try omega

end

theorem loads_enc (v : PyVal) (hs : serOk v = true) :
    loads (String.mk (enc v)) = some v := by
  have h2 : parseJ ((enc v).length + 1) (enc v) = some (v, []) := by
    have h := parseJ_enc v ((enc v).length + 1) [] hs
      (by have := fuelOf_le_enc v hs; omega) (by simp [headNotDigit])
    rw [List.append_nil] at h
    exact h
  rw [loads]
  rw [show (String.mk (enc v)).data = enc v from rfl]
  rw [h2]

theorem loads_to_json (v : PyVal) (hs : serOk v = true) (hns : ∀ s, v ≠ PyVal.vStr s) :
    loads (to_json v) = some v := by
  have hd : dumps v = some (String.mk (enc v)) := by rw [dumps, if_pos hs]
  have hj : to_json v = String.mk (enc v) := by
    cases v with
    | vStr s => exact absurd rfl (hns s)
    | vNone =>
      rw [to_json, hd]
      exact fun s h => PyVal.noConfusion h
    | vBool b =>
      rw [to_json, hd]
      exact fun s h => PyVal.noConfusion h
    | vInt n =>
      rw [to_json, hd]
      exact fun s h => PyVal.noConfusion h
    | vList xs =>
      rw [to_json, hd]
      exact fun s h => PyVal.noConfusion h
    | vDict ms =>
      rw [to_json, hd]
      exact fun s h => PyVal.noConfusion h
    | vObj s =>
      rw [to_json, hd]
      exact fun s h => PyVal.noConfusion h
  rw [hj]
  exact loads_enc v hs

/-! ## The reporting bridge (`tgreports/main.py`) -/

/-- `SYMBOLS` (main.py line 18). -/
def SYMBOLS : List String := ["💬", "🟢", "⚠️", "❗️", "‼️", "✅", "🛎"]

/-- `TYPES` (main.py lines 19-27). -/
def TYPES : List String :=
  ["DEBUG", "INFO", "WARNING", "ERROR", "CRITICAL", "IMPORTANT", "REQUEST"]

/-- `SYMBOLS[i]` (indices used by the module are always in range). -/
def sym (i : Nat) : String := SYMBOLS.getD i ""

/-- `TYPES[i]` (indices used by the module are always in range). -/
def typN (i : Nat) : String := TYPES.getD i ""

/-- One traceback / stack frame: `(filename, lineno, name)` as used from a
`FrameSummary` or `inspect.stack()` entry. -/
structure Frame where
  filename : String
  lineno : Nat
  name : String
deriving Repr, DecidableEq

/-- A Python exception value as the module sees it: `extract_tb(__traceback__)`
(frames outermost-first, empty when the traceback is `None`) plus the opaque
text `"".join(traceback.format_exception(None, e, e.__traceback__))`. -/
structure Err where
  tb : List Frame
  formatted : String
deriving Repr, DecidableEq

/-- Exceptions the embedded code itself can raise to its caller. -/
inductive PyErr where
  | indexError
deriving Repr, DecidableEq

/-- What one `_report` dispatch produced: Telegram send attempts (message
texts, in order) and local `logger.error` lines written on send failures. -/
structure RunResult where
  sends : List String
  logs : List String
deriving Repr, DecidableEq

/-- `dict.get k` on a dumped extra payload. -/
def dGet (kvs : List (String × String)) (k : String) : Option String :=
  (kvs.find? (fun p => p.1 == k)).map (fun p => p.2)

/-- `del d[k]` on a dumped extra payload (dict keys are unique). -/
def dDel (kvs : List (String × String)) (k : String) : List (String × String) :=
  kvs.eraseP (fun p => p.1 == k)

/-- `dict.get k` on an original (pre-`dump`) payload dict. -/
def vGet (kvs : List (String × PyVal)) (k : String) : Option PyVal :=
  (kvs.find? (fun p => p.1 == k)).map (fun p => p.2)

/-- The severity-escalation override, main.py lines 143-150: inside
`_report`, a dict extra whose `name` or `title` equals `"Error"` bumps the
type to 3 (ERROR) and drops the sentinel key. -/
def escalate : Dumped → Nat → Dumped × Nat
  | .dictV kvs, ty =>
    let st1 : List (String × String) × Nat :=
      if dGet kvs "name" = some "Error" then (dDel kvs "name", 3) else (kvs, ty)
    let st2 : List (String × String) × Nat :=
      if dGet st1.1 "title" = some "Error" then (dDel st1.1 "title", 3) else (st1.1, st1.2)
    (.dictV st2.1, st2.2)
  | e, ty => (e, ty)

/-- The extra payload does not trigger the escalation override. -/
def noEscal : Dumped → Prop
  | .dictV kvs => dGet kvs "name" ≠ some "Error" ∧ dGet kvs "title" ≠ some "Error"
  | _ => True

/-- The `for trace in traces: ... break / else: trace = traces[0]` loop body
of main.py lines 166-170, returning the frame left in `trace`: the first
frame (in the given order) whose filename does not contain `"python"`,
otherwise the first element of the list (IndexError when it is empty). -/
def forElseGo (first : Frame) : List Frame → Frame
  | [] => first
  | t :: ts => if !(strContains "python" t.filename) then t else forElseGo first ts

/-- Frame selection over the (already reversed, innermost-first) trace list,
main.py lines 164-170, including the `traces[0]` IndexError on an empty
traceback. -/
def forElseSelect : List Frame → Except PyErr Frame
  | [] => .error .indexError
  | t :: ts => .ok (forElseGo t (t :: ts))

/-- Filename cleanup, main.py lines 183-186: strip a leading `/app`, then a
leading `/./`. -/
def cleanFilename (f : String) : String :=
  let f1 := if strTake f 4 = "/app" then strDrop f 4 else f
  if strTake f1 3 = "/./" then strDrop f1 3 else f1

/-- `filename.replace("/", ".")` (single-character replace). -/
def replaceSlash (s : String) : String :=
  String.mk (s.data.map (fun c => if c = '/' then '.' else c))

/-- Dotted logical-path label, main.py lines 188-200:
`path = filename.replace("/", ".").split(".")[:-1]`, drop a leading `api`,
append the function name when truthy and not `"handle"`, and prefix a line
break; empty `path` yields the empty label. -/
def logicalPath (filename : String) (function : String) : String :=
  match (splitChar '.' (replaceSlash filename)).dropLast with
  | [] => ""
  | p0 :: prest =>
    let path1 := if p0 = "api" then prest else p0 :: prest
    let path2 := if function ≠ "" ∧ function ≠ "handle" then path1 ++ [function] else path1
    "\n" ++ joinSep "." path2

/-- Provenance resolution, main.py lines 158-180: no frame for
traceback-less severities; the reversed-traceback walk when an error value
is supplied; otherwise the caller frame that `inspect.stack()[2]` yields
(passed in explicitly). -/
def provenance (wt : Bool) (error : Option Err) (callerFrame : Frame) :
    Except PyErr (Option Frame) :=
  if wt then .ok Option.none
  else
    match error with
    | some e => (forElseSelect e.tb.reverse).map Option.some
    | none => .ok (Option.some callerFrame)

/-- `path` and `source` strings, main.py lines 182-206 (the `if filename:`
truthiness test is on the raw frame filename; cleanup happens inside). -/
def pathAndSource : Option Frame → String × String
  | Option.none => ("", "")
  | Option.some fr =>
    if fr.filename ≠ "" then
      let fn := cleanFilename fr.filename
      (logicalPath fn fr.name, "\n" ++ fn ++ ":" ++ toString fr.lineno)
    else ("", "")

/-- Python truthiness of a dumped extra payload (`if extra:`). -/
def dumpedTruthy : Dumped → Bool
  | .nullV => false
  | .strV s => s ≠ ""
  | .dictV kvs => kvs ≠ []

/-- The extra block, main.py lines 211-214: `k = v` lines for a dict,
`str(extra)` otherwise. -/
def extraText : Dumped → String
  | .dictV kvs => joinSep "\n" (kvs.map (fun p => p.1 ++ " = " ++ p.2))
  | .strV s => s
  | .nullV => "None"

/-- Python `str()` of a dumped extra payload (used in f-string logs). -/
def dumpedStr : Dumped → String
  | .nullV => "None"
  | .strV s => s
  | .dictV kvs =>
    "\x7b" ++ joinSep ", " (kvs.map (fun p => reprString p.1 ++ ": " ++ reprString p.2)) ++ "\x7d"

/-- The dumped payload as a Python value again (for `json.dumps(extra)` in
the entry points' log lines). -/
def dumpedToVal : Dumped → PyVal
  | .nullV => .vNone
  | .strV s => .vStr s
  | .dictV kvs => .vDict (kvs.map (fun p => (p.1, PyVal.vStr p.2)))

/-- `json.dumps(extra, ensure_ascii=False)` on a dumped payload (always
serializable: its leaves are strings). -/
def dumpsD (d : Dumped) : String := String.mk (enc (dumpedToVal d))

/-- The `try: send / except: log, retry base, log` dispatch of main.py lines
227-243.  `transport n` is the outcome of the `n`-th `tg.send` attempt:
`none` for success, `some e` for an exception rendered as `e`. -/
def sendWithFallback (transport : Nat → Option String) (extra : Dumped) (type_ : Nat)
    (textBase textWithExtra : String) : RunResult :=
  match transport 0 with
  | Option.none => { sends := [textWithExtra], logs := [] }
  | Option.some e =>
    if dumpedTruthy extra then
      let log1 := sym 3 ++ "  Send report  " ++ dumpedStr extra ++ " " ++ e
      match transport 1 with
      | Option.none => { sends := [textWithExtra, textBase], logs := [log1] }
      | Option.some e2 =>
        { sends := [textWithExtra, textBase]
          logs := [log1, sym 3 ++ "  Send report  " ++ toString type_ ++ " " ++ textBase ++ " " ++ e2] }
    else
      { sends := [textWithExtra]
        logs := [sym 3 ++ "  Send report  " ++ toString type_ ++ " " ++ textBase ++ " " ++ e] }

/-- `Report._report` (main.py lines 125-243): escalation override, the
INFO/mode gate, provenance, message composition and dispatch.  Raises
(`Except.error`) exactly where the Python would let an exception escape. -/
def reportRun (mode : String) (callerFrame : Frame) (transport : Nat → Option String)
    (text0 : String) (type0 : Nat) (extra0 : Dumped) (tags0 : List String)
    (error : Option Err) : Except PyErr RunResult :=
  let wt : Bool := type0 == 1 || type0 == 5 || type0 == 6
  let st := escalate extra0 type0
  let extra1 := st.1
  let type1 := st.2
  if (mode ≠ "PRE" ∧ mode ≠ "PROD") ∧ type1 = 1 then .ok { sends := [], logs := [] }
  else
    match provenance wt error callerFrame with
    | .error pe => .error pe
    | .ok info =>
      let ps := pathAndSource info
      let text1 := sym type1 ++ " " ++ mode ++ " " ++ typN type1 ++ ps.1 ++ "\n\n" ++ text0
      let textWithExtra :=
        if dumpedTruthy extra1 then text1 ++ "\n\n" ++ extraText extra1 else text1
      let tags1 := String.toLower mode :: tags0
      let outro := "\n" ++ ps.2 ++ "\n#" ++ joinSep " #" tags1
      .ok (sendWithFallback transport extra1 type1 (text1 ++ outro) (textWithExtra ++ outro))

/-- Result of one public entry point: the local log line it writes
unconditionally, and the outcome of the `_report` call (empty when silent
or, for `debug`, always). -/
structure EntryOut where
  localLine : String
  rest : Except PyErr RunResult
deriving Repr

/-- The empty dispatch result. -/
def emptyRun : RunResult := { sends := [], logs := [] }

/-- Send attempts of an entry-point call (empty when `_report` raised). -/
def sendsOf (o : EntryOut) : List String :=
  match o.rest with
  | .ok r => r.sends
  | .error _ => []

namespace Report

/-- `Report.debug` (main.py lines 245-249): file log only, never a Telegram
send.  Note the f-string interpolates `dump(extra)` by `str()`, not by
`json.dumps`. -/
def debug (text : String) (extra : PyVal) : EntryOut :=
  { localLine := sym 0 ++ "  " ++ text ++ "  " ++ dumpedStr (dump extra)
    rest := .ok emptyRun }

/-- `Report.info` (main.py lines 251-258). -/
def info (mode : String) (callerFrame : Frame) (transport : Nat → Option String)
    (text : String) (extra : PyVal) (tags : List String) (silent : Bool) : EntryOut :=
  let extra1 := dump extra
  { localLine := sym 1 ++ "  " ++ text ++ "  " ++ dumpsD extra1
    rest :=
      if silent then .ok emptyRun
      else reportRun mode callerFrame transport text 1 extra1 tags Option.none }

/-- `Report.warning` (main.py lines 260-274).  The local log line ignores
the `error` argument entirely. -/
def warning (mode : String) (callerFrame : Frame) (transport : Nat → Option String)
    (text : String) (extra : PyVal) (tags : List String) (error : Option Err)
    (silent : Bool) : EntryOut :=
  let extra1 := dump extra
  { localLine := sym 2 ++ "  " ++ text ++ "  " ++ dumpsD extra1
    rest :=
      if silent then .ok emptyRun
      else reportRun mode callerFrame transport text 2 extra1 tags error }

/-- `Report.error` (main.py lines 276-295): the local line is the rendered
exception trace when an error value is supplied, else `text  dumps(extra)`. -/
def error (mode : String) (callerFrame : Frame) (transport : Nat → Option String)
    (text : String) (extra : PyVal) (tags : List String) (error : Option Err)
    (silent : Bool) : EntryOut :=
  let extra1 := dump extra
  let content :=
    match error with
    | some e => e.formatted
    | none => text ++ "  " ++ dumpsD extra1
  { localLine := sym 3 ++ "  " ++ content
    rest :=
      if silent then .ok emptyRun
      else reportRun mode callerFrame transport text 3 extra1 tags error }

/-- `Report.critical` (main.py lines 297-316): same shape as `error` with
severity 4. -/
def critical (mode : String) (callerFrame : Frame) (transport : Nat → Option String)
    (text : String) (extra : PyVal) (tags : List String) (error : Option Err)
    (silent : Bool) : EntryOut :=
  let extra1 := dump extra
  let content :=
    match error with
    | some e => e.formatted
    | none => text ++ "  " ++ dumpsD extra1
  { localLine := sym 4 ++ "  " ++ content
    rest :=
      if silent then .ok emptyRun
      else reportRun mode callerFrame transport text 4 extra1 tags error }

/-- `Report.important` (main.py lines 318-325). -/
def important (mode : String) (callerFrame : Frame) (transport : Nat → Option String)
    (text : String) (extra : PyVal) (tags : List String) (silent : Bool) : EntryOut :=
  let extra1 := dump extra
  { localLine := sym 5 ++ "  " ++ text ++ "  " ++ dumpsD extra1
    rest :=
      if silent then .ok emptyRun
      else reportRun mode callerFrame transport text 5 extra1 tags Option.none }

/-- `Report.request` (main.py lines 327-334). -/
def request (mode : String) (callerFrame : Frame) (transport : Nat → Option String)
    (text : String) (extra : PyVal) (tags : List String) (silent : Bool) : EntryOut :=
  let extra1 := dump extra
  { localLine := sym 6 ++ "  " ++ text ++ "  " ++ dumpsD extra1
    rest :=
      if silent then .ok emptyRun
      else reportRun mode callerFrame transport text 6 extra1 tags Option.none }

end Report

/-! ## Aliasing model for the caller-supplied mapping (C10)

A small heap of dict objects makes the in-place `del` of the escalation
override observable: `dump`'s comprehension allocates a fresh cell, and the
`del` of main.py lines 143-150 mutates only that fresh cell. -/

/-- Heap of Python dict objects, addressed by list position. -/
abbrev Heap : Type := List (List (String × PyVal))

/-- `extra = dump(extra)` on a dict living at ref `r`: read the caller's
cell, build the normalized dict in a freshly allocated cell, return its
ref. -/
def dumpCellH (h : Heap) (r : Nat) : Heap × Nat :=
  let cell := h.getD r []
  let fresh := cell.filterMap (fun p =>
    match p.2 with
    | PyVal.vNone => none
    | _ => some (p.1, PyVal.vStr (to_json p.2)))
  (h ++ [fresh], h.length)

/-- `dict.get` on a heap cell. -/
def dGetV (cell : List (String × PyVal)) (k : String) : Option PyVal :=
  (cell.find? (fun p => p.1 == k)).map (fun p => p.2)

/-- `del cell[k]`. -/
def dDelV (cell : List (String × PyVal)) (k : String) : List (String × PyVal) :=
  cell.eraseP (fun p => p.1 == k)

/-- Whether a `dict.get` result equals the string `"Error"`. -/
def isErrorStr : Option PyVal → Bool
  | some (PyVal.vStr s) => s == "Error"
  | _ => false

/-- The escalation override of main.py lines 143-150 as an in-place update
of the dict at ref `r`. -/
def escalStepH (h : Heap) (r : Nat) (ty : Nat) : Heap × Nat :=
  let cell := h.getD r []
  let st1 : List (String × PyVal) × Nat :=
    if isErrorStr (dGetV cell "name") then (dDelV cell "name", 3) else (cell, ty)
  let st2 : List (String × PyVal) × Nat :=
    if isErrorStr (dGetV st1.1 "title") then (dDelV st1.1 "title", 3)
    else (st1.1, st1.2)
  (h.set r st2.1, st2.2)

/-- The mutation-relevant prefix of an `info` call with a dict extra at ref
`r`: normalize (allocating a fresh cell), then run the escalation override
on the fresh cell. -/
def infoEscalH (h : Heap) (r : Nat) : Heap × Nat × Nat :=
  let d := dumpCellH h r
  let e := escalStepH d.1 d.2 1
  (e.1, d.2, e.2)

/-! ## The path-derivation rule as claim C7 words it, and as amended -/

/-- Drop a trailing `.ext` from a path segment when one is present. -/
def stemOfSeg (s : String) : String :=
  match (splitChar '.' s).dropLast with
  | [] => s
  | parts => joinSep "." parts

/-- Apply `f` to the last element of a list. -/
def mapLast (f : String → String) : List String → List String
  | [] => []
  | [x] => [f x]
  | x :: y :: ys => x :: mapLast f (y :: ys)

/-- Modelled from the spec: the dotted-path rule exactly as C7 states it --
split the cleaned filename on path separators, drop the extension segment,
drop a leading segment equal to `api`, and append the function name unless
it equals `handle`. -/
def claimPathRule (filename : String) (function : String) : String :=
  let segs0 := mapLast stemOfSeg (splitChar '/' filename)
  let segs1 :=
    match segs0 with
    | s0 :: srest => if s0 = "api" then srest else s0 :: srest
    | [] => []
  let segs2 := if function ≠ "handle" then segs1 ++ [function] else segs1
  "\n" ++ joinSep "." segs2

/-- The amended rule: split the cleaned filename on path separators AND
dots, drop the last segment, drop a leading segment equal to `api`, and
append the function name unless it is empty or equals `handle`; an empty
segment list yields the empty label. -/
def amendedPathRule (filename : String) (function : String) : String :=
  match (splitPred (fun c => c = '/' || c = '.') filename).dropLast with
  | [] => ""
  | s0 :: srest =>
    let p1 := if s0 = "api" then srest else s0 :: srest
    let p2 := if function ≠ "" ∧ function ≠ "handle" then p1 ++ [function] else p1
    "\n" ++ joinSep "." p2

/-! ## Dispatch helper lemmas -/

theorem sendWithFallback_sends_ne (tr : Nat → Option String) (e : Dumped) (ty : Nat)
    (b x : String) : (sendWithFallback tr e ty b x).sends ≠ [] := by
  cases h0 : tr 0 with
  | none => simp [sendWithFallback, h0]
  | some e1 =>
    by_cases hx : dumpedTruthy e <;> cases h1 : tr 1 <;> simp [sendWithFallback, h0, h1, hx]

theorem sendWithFallback_head (tr : Nat → Option String) (e : Dumped) (ty : Nat)
    (b x : String) : (sendWithFallback tr e ty b x).sends.head? = some x := by
  cases h0 : tr 0 with
  | none => simp [sendWithFallback, h0]
  | some e1 =>
    by_cases hx : dumpedTruthy e <;> cases h1 : tr 1 <;> simp [sendWithFallback, h0, h1, hx]

theorem escalate_of_noEscal (d : Dumped) (ty : Nat) (h : noEscal d) :
    escalate d ty = (d, ty) := by
  cases d with
  | nullV => rfl
  | strV s => rfl
  | dictV kvs =>
    rw [noEscal] at h
    rw [escalate]
    simp [h.1, h.2]

/-! ## C1 -/

/-- C1: the spec says no public entry point ever raises, for any argument
shape including an error value with an empty or absent traceback.  The code
violates this: `await report.error("boom", error=e)` with `e` an exception
that was never raised (`e.__traceback__ is None`) reaches
`traces = traceback.extract_tb(None)[::-1] = []` and the `for`/`else` clause
executes `trace = traces[0]`, raising `IndexError` out of the public
`error` coroutine.  This theorem evaluates the embedded code at that
failing input. -/
theorem error_empty_traceback_raises :
    (Report.error "PROD" { filename := "/app/m.py", lineno := 1, name := "f" }
        (fun _ => Option.none) "boom" .vNone []
        (some { tb := [], formatted := "NoneType: None\n" }) false).rest
      = Except.error PyErr.indexError := rfl

/-! ## C4 -/

/-- C4: with a truthy (non-empty) extra payload and a transport whose first
attempt raises and whose second succeeds, the dispatch block of main.py
lines 227-243 makes exactly two transport calls -- first the extended
message, then the base message -- and writes exactly one local failure
log. -/
theorem send_fallback_two_attempts (tr : Nat → Option String) (extra : Dumped)
    (ty : Nat) (textBase textWithExtra : String) (e1 : String)
    (hex : dumpedTruthy extra = true) (h0 : tr 0 = some e1)
    (h1 : tr 1 = Option.none) :
    sendWithFallback tr extra ty textBase textWithExtra =
      { sends := [textWithExtra, textBase]
        logs := [sym 3 ++ "  Send report  " ++ dumpedStr extra ++ " " ++ e1] } := by
  simp [sendWithFallback, h0, h1, hex]

theorem send_fallback_two_attempts_witness :
    dumpedTruthy (Dumped.strV "x") = true
  ∧ (fun n => if n == 0 then some "err" else Option.none) 0 = some "err"
  ∧ (fun n => if n == 0 then some "err" else Option.none) 1 = Option.none
  ∧ sendWithFallback (fun n => if n == 0 then some "err" else Option.none)
      (Dumped.strV "x") 3 "BASE" "EXT" =
      { sends := ["EXT", "BASE"]
        logs := [sym 3 ++ "  Send report  " ++ dumpedStr (Dumped.strV "x") ++ " " ++ "err"] } :=
  ⟨rfl, rfl, rfl, send_fallback_two_attempts _ _ 3 "BASE" "EXT" "err" rfl rfl rfl⟩

/-! ## C5 -/

/-- C5 counterexample: the claim says `warning` with a supplied error writes
the rendered frame trace to the local sink; the code's `warning` ignores the
error argument and always logs `{symbol}  {text}  {dumps(extra)}`. -/
theorem warning_local_ignores_error_cex :
    (Report.warning "PROD" { filename := "c.py", lineno := 1, name := "g" }
        (fun _ => Option.none) "t" .vNone []
        (some { tb := [], formatted := "TRACE" }) false).localLine = "⚠️  t  null"
  ∧ ("⚠️  t  null" : String) ≠ "TRACE" := by
  refine ⟨?_, by decide⟩
  simp [Report.warning, dumpsD, dump, dumpedToVal, enc, sym, SYMBOLS]

/-- C5 amended: for `error` and `critical`, the local-sink line is
`{symbol}  {rendered trace}` when an error value is supplied and
`{symbol}  {text}  {dumps(extra)}` otherwise; `warning` always writes
`{symbol}  {text}  {dumps(extra)}`, regardless of any supplied error. -/
theorem local_sink_content (mode : String) (fr : Frame) (tr : Nat → Option String)
    (text : String) (extra : PyVal) (tags : List String) (e : Err) (silent : Bool) :
    (Report.error mode fr tr text extra tags (some e) silent).localLine
      = sym 3 ++ "  " ++ e.formatted
  ∧ (Report.error mode fr tr text extra tags Option.none silent).localLine
      = sym 3 ++ "  " ++ (text ++ "  " ++ dumpsD (dump extra))
  ∧ (Report.critical mode fr tr text extra tags (some e) silent).localLine
      = sym 4 ++ "  " ++ e.formatted
  ∧ (Report.critical mode fr tr text extra tags Option.none silent).localLine
      = sym 4 ++ "  " ++ (text ++ "  " ++ dumpsD (dump extra))
  ∧ ∀ err : Option Err,
      (Report.warning mode fr tr text extra tags err silent).localLine
        = sym 2 ++ "  " ++ text ++ "  " ++ dumpsD (dump extra) :=
  ⟨rfl, rfl, rfl, rfl, fun _ => rfl⟩

/-! ## C6 -/

theorem forElseGo_eq (first : Frame) (l : List Frame) :
    forElseGo first l =
      (l.find? (fun t => !(strContains "python" t.filename))).getD first := by
  induction l with
  | nil => rfl
  | cons t ts ih =>
    rw [forElseGo]
    by_cases hp : strContains "python" t.filename
    · rw [if_neg (by simp [hp]), List.find?_cons_of_neg _ (by simp [hp]), ih]
    · rw [if_pos (by simp [hp]), List.find?_cons_of_pos _ (by simp [hp])]
      rfl

/-- C6: on a non-empty (already innermost-first) trace list, the selection
loop of main.py lines 164-170 picks the first frame whose filename does not
contain `"python"`, and falls back to the innermost frame when every
filename contains it. -/
theorem traceback_frame_selection (traces : List Frame) (h : traces ≠ []) :
    forElseSelect traces =
      .ok ((traces.find? (fun t => !(strContains "python" t.filename))).getD
        (traces.headD { filename := "", lineno := 0, name := "" })) := by
  cases traces with
  | nil => exact absurd rfl h
  | cons t ts =>
    rw [forElseSelect, forElseGo_eq]
    rfl

theorem traceback_frame_selection_witness :
    ([{ filename := "/usr/lib/python3/a.py", lineno := 1, name := "f" },
      { filename := "/app/b.py", lineno := 2, name := "g" }] : List Frame) ≠ []
  ∧ forElseSelect
      [{ filename := "/usr/lib/python3/a.py", lineno := 1, name := "f" },
       { filename := "/app/b.py", lineno := 2, name := "g" }] =
      .ok ((([{ filename := "/usr/lib/python3/a.py", lineno := 1, name := "f" },
          { filename := "/app/b.py", lineno := 2, name := "g" }] : List Frame).find?
          (fun t => !(strContains "python" t.filename))).getD
        (([{ filename := "/usr/lib/python3/a.py", lineno := 1, name := "f" },
          { filename := "/app/b.py", lineno := 2, name := "g" }] : List Frame).headD
          { filename := "", lineno := 0, name := "" })) :=
  ⟨by decide, traceback_frame_selection _ (by decide)⟩

/-! ## C7 -/

/-- C7 counterexample: for the cleaned filename `service/worker` (no
extension) and function `run`, the code's rule yields `\nservice.run` --
the final path component `worker` is dropped even though it is not an
extension -- while the claim's rule yields `\nservice.worker.run`. -/
theorem path_rule_claim_cex :
    logicalPath "service/worker" "run" = "\n" ++ "service.run"
  ∧ claimPathRule "service/worker" "run" = "\n" ++ "service.worker.run"
  ∧ logicalPath "service/worker" "run" ≠ claimPathRule "service/worker" "run" := by
  refine ⟨rfl, rfl, ?_⟩
  decide

theorem splitChar_replaceSlash (l : List Char) :
    ∀ cur, splitOnCharAux '.' (l.map (fun c => if c = '/' then '.' else c)) cur =
      splitPredAux (fun c => c = '/' || c = '.') l cur := by
  induction l with
  | nil => intro cur; rfl
  | cons c cs ih =>
    intro cur
    by_cases h1 : c = '/'
    · subst h1
      simp only [List.map_cons, if_pos rfl, splitOnCharAux, splitPredAux]
      simp [ih]
    · by_cases h2 : c = '.'
      · subst h2
        simp only [List.map_cons, if_neg h1, splitOnCharAux, splitPredAux]
        simp [ih]
      · simp only [List.map_cons, if_neg h1, splitOnCharAux, splitPredAux]
        simp only [h1, h2, if_false, Bool.or_self, ih]
        simp [h1, h2, ih]

/-- C7 amended: the label is the cleaned filename split on path separators
AND dots with the last segment dropped (rather than only the extension
segment), a leading `api` segment dropped, and the function name appended
unless it is empty or equals `handle`; the in-particular examples of the
claim hold as stated. -/
theorem logical_path_amended (filename function : String) :
    logicalPath filename function = amendedPathRule filename function
  ∧ logicalPath "service/worker.py" "run" = "\n" ++ "service.worker.run"
  ∧ logicalPath "service/worker.py" "handle" = "\n" ++ "service.worker" := by
  refine ⟨?_, rfl, rfl⟩
  rw [logicalPath, amendedPathRule, replaceSlash, splitChar, splitPred]
  rw [show (String.mk (filename.data.map (fun c => if c = '/' then '.' else c))).data
      = filename.data.map (fun c => if c = '/' then '.' else c) from rfl]
  rw [splitChar_replaceSlash]

/-! ## C2 -/

/-- C2: an `info` call makes a remote delivery attempt (at least one
transport send) if and only if the mode is PRE or PROD and `silent` is
false, provided the extra payload does not trigger the escalation
override. -/
theorem info_remote_gate (mode : String) (fr : Frame) (tr : Nat → Option String)
    (text : String) (extra : PyVal) (tags : List String) (silent : Bool)
    (hesc : noEscal (dump extra)) :
    sendsOf (Report.info mode fr tr text extra tags silent) ≠ [] ↔
      ((mode = "PRE" ∨ mode = "PROD") ∧ silent = false) := by
  cases silent with
  | true => simp [Report.info, sendsOf, emptyRun]
  | false =>
    have hesc' := escalate_of_noEscal (dump extra) 1 hesc
    simp only [Report.info, sendsOf, reportRun, hesc']
    by_cases h1 : mode = "PRE"
    · simp [h1, provenance, sendWithFallback_sends_ne]
    · by_cases h2 : mode = "PROD"
      · simp [h2, provenance, sendWithFallback_sends_ne]
      · simp [h1, h2]

theorem info_remote_gate_witness :
    noEscal (dump PyVal.vNone)
  ∧ (sendsOf (Report.info "PROD" { filename := "f.py", lineno := 1, name := "g" }
        (fun _ => Option.none) "hi" PyVal.vNone [] false) ≠ [] ↔
      (("PROD" = "PRE" ∨ "PROD" = "PROD") ∧ false = false)) :=
  ⟨trivial, info_remote_gate "PROD" { filename := "f.py", lineno := 1, name := "g" }
    (fun _ => Option.none) "hi" PyVal.vNone [] false trivial⟩

/-! ## C9 and C3: the escalation override -/

theorem reportRun_escalated_sends (mode : String) (fr : Frame) (tr : Nat → Option String)
    (text : String) (d : Dumped) (tags : List String) (e1 : Dumped)
    (hesc : escalate d 1 = (e1, 3)) :
    reportRun mode fr tr text 1 d tags Option.none =
      Except.ok (sendWithFallback tr e1 3
        (sym 3 ++ " " ++ mode ++ " " ++ typN 3 ++ "" ++ "\n\n" ++ text ++
          ("\n" ++ "" ++ "\n#" ++ joinSep " #" (String.toLower mode :: tags)))
        ((if dumpedTruthy e1 = true then
            sym 3 ++ " " ++ mode ++ " " ++ typN 3 ++ "" ++ "\n\n" ++ text ++ "\n\n" ++ extraText e1
          else sym 3 ++ " " ++ mode ++ " " ++ typN 3 ++ "" ++ "\n\n" ++ text) ++
          ("\n" ++ "" ++ "\n#" ++ joinSep " #" (String.toLower mode :: tags)))) := by
  simp only [reportRun, hesc]
  rw [if_neg (fun hc => absurd hc.2 (by decide))]
  simp [provenance, pathAndSource]

theorem dGet_cons_of_pos (a : String × String) (l : List (String × String)) (k : String)
    (hk : (a.1 == k) = true) : dGet (a :: l) k = some a.2 := by
  rw [dGet, List.find?_cons_of_pos (p := fun q => q.1 == k) l hk]
  rfl

theorem dGet_cons_of_neg (a : String × String) (l : List (String × String)) (k : String)
    (hk : ¬(a.1 == k) = true) : dGet (a :: l) k = dGet l k := by
  rw [dGet, dGet, List.find?_cons_of_neg (p := fun q => q.1 == k) l hk]

theorem dGet_dump_of_vGet (pairs : List (String × PyVal)) (k v : String)
    (h : vGet pairs k = some (PyVal.vStr v)) :
    dGet (dumpEntries (dump (PyVal.vDict pairs))) k = some v := by
  induction pairs with
  | nil => simp [vGet] at h
  | cons p ps ih =>
    by_cases hk : (p.1 == k) = true
    · have hp2 : p.2 = PyVal.vStr v := by
        rw [vGet, List.find?_cons_of_pos (p := fun q => q.1 == k) ps hk] at h
        simpa using h
      simp only [dump, dumpEntries, List.filterMap_cons, hp2]
      exact dGet_cons_of_pos _ _ _ hk
    · have ihs := ih (by
        rw [vGet, List.find?_cons_of_neg (p := fun q => q.1 == k) ps hk] at h
        exact h)
      simp only [dump, dumpEntries, List.filterMap_cons] at ihs ⊢
      cases hp : p.2 <;> simp only [hp] <;>
        first
          | exact ihs
          | exact (dGet_cons_of_neg _ _ _ hk).trans ihs

theorem escalate_snd_of_hit (kvs : List (String × String)) (ty : Nat)
    (h : dGet kvs "name" = some "Error" ∨ dGet kvs "title" = some "Error") :
    (escalate (Dumped.dictV kvs) ty).2 = 3 := by
  rcases h with h | h
  · by_cases h2 : dGet (dDel kvs "name") "title" = some "Error" <;>
      simp [escalate, h, h2]
  · by_cases h1 : dGet kvs "name" = some "Error"
    · by_cases h2 : dGet (dDel kvs "name") "title" = some "Error" <;>
        simp [escalate, h1, h2]
    · simp [escalate, h1, h]

theorem sendWithFallback_sends_cases (transport : Nat → Option String) (extra : Dumped)
    (type_ : Nat) (textBase textWithExtra s : String)
    (hs : s ∈ (sendWithFallback transport extra type_ textBase textWithExtra).sends) :
    s = textWithExtra ∨ s = textBase := by
  simp only [sendWithFallback] at hs
  split at hs
  · simp at hs
    exact Or.inl hs
  · split at hs
    · split at hs
      · simp at hs
        tauto
      · simp at hs
        tauto
    · simp at hs
      exact Or.inl hs

/-- C9: for every mode outside PRE/PROD and every extra dict payload whose
`name` or `title` key holds the string `"Error"`, a non-silent `info` call
still attempts remote delivery: the escalation override of main.py lines
143-150 runs before the Info/mode suppression check of lines 152-153, every
attempted message's headline opens with the severity-3 label, and that label
reads `ERROR`. -/
theorem info_escalation_bypasses_gate (mode text : String) (fr : Frame)
    (tr : Nat → Option String) (tags : List String) (pairs : List (String × PyVal))
    (_hmode : mode ≠ "PRE" ∧ mode ≠ "PROD")
    (hkey : vGet pairs "name" = some (PyVal.vStr "Error")
          ∨ vGet pairs "title" = some (PyVal.vStr "Error")) :
    sendsOf (Report.info mode fr tr text (PyVal.vDict pairs) tags false) ≠ []
  ∧ (∀ s ∈ sendsOf (Report.info mode fr tr text (PyVal.vDict pairs) tags false),
      ∃ rest, s = sym 3 ++ " " ++ mode ++ " " ++ typN 3 ++ "\n\n" ++ rest)
  ∧ typN 3 = "ERROR" := by
  have hget : dGet (dumpEntries (dump (PyVal.vDict pairs))) "name" = some "Error"
      ∨ dGet (dumpEntries (dump (PyVal.vDict pairs))) "title" = some "Error" := by
    rcases hkey with h | h
    · exact Or.inl (dGet_dump_of_vGet pairs _ _ h)
    · exact Or.inr (dGet_dump_of_vGet pairs _ _ h)
  have hty : (escalate (dump (PyVal.vDict pairs)) 1).2 = 3 := by
    have hshape : dump (PyVal.vDict pairs)
        = Dumped.dictV (dumpEntries (dump (PyVal.vDict pairs))) := rfl
    rw [hshape]
    exact escalate_snd_of_hit _ 1 hget
  have hesc : escalate (dump (PyVal.vDict pairs)) 1
      = ((escalate (dump (PyVal.vDict pairs)) 1).1, 3) := by
    rw [← hty]
  have hrr := reportRun_escalated_sends mode fr tr text (dump (PyVal.vDict pairs)) tags
    ((escalate (dump (PyVal.vDict pairs)) 1).1) hesc
  refine ⟨?_, ?_, rfl⟩
  · simp [Report.info, sendsOf, hrr, sendWithFallback_sends_ne]
  · intro s hs
    simp only [Report.info, sendsOf, Bool.false_eq_true, if_false, hrr] at hs
    rcases sendWithFallback_sends_cases _ _ _ _ _ _ hs with h | h <;> subst h
    · by_cases hT : dumpedTruthy (escalate (dump (PyVal.vDict pairs)) 1).1 = true
      · exact ⟨text ++ "\n\n" ++ extraText (escalate (dump (PyVal.vDict pairs)) 1).1
          ++ ("\n" ++ "" ++ "\n#" ++ joinSep " #" (String.toLower mode :: tags)), by
            simp [hT, String.append_assoc]⟩
      · exact ⟨text ++ ("\n" ++ "" ++ "\n#" ++ joinSep " #" (String.toLower mode :: tags)), by
            simp [hT, String.append_assoc]⟩
    · exact ⟨text ++ ("\n" ++ "" ++ "\n#" ++ joinSep " #" (String.toLower mode :: tags)), by
          simp [String.append_assoc]⟩

theorem info_escalation_bypasses_gate_witness :
    (("DEV" : String) ≠ "PRE" ∧ ("DEV" : String) ≠ "PROD")
  ∧ (vGet [("title", PyVal.vStr "Error"), ("k", PyVal.vStr "x")] "name"
        = some (PyVal.vStr "Error")
      ∨ vGet [("title", PyVal.vStr "Error"), ("k", PyVal.vStr "x")] "title"
        = some (PyVal.vStr "Error"))
  ∧ (sendsOf (Report.info "DEV" { filename := "f.py", lineno := 1, name := "g" }
        (fun _ => Option.none) "t"
        (PyVal.vDict [("title", PyVal.vStr "Error"), ("k", PyVal.vStr "x")]) [] false) ≠ []
    ∧ (∀ s ∈ sendsOf (Report.info "DEV" { filename := "f.py", lineno := 1, name := "g" }
          (fun _ => Option.none) "t"
          (PyVal.vDict [("title", PyVal.vStr "Error"), ("k", PyVal.vStr "x")]) [] false),
        ∃ rest, s = sym 3 ++ " " ++ "DEV" ++ " " ++ typN 3 ++ "\n\n" ++ rest)
    ∧ typN 3 = "ERROR") :=
  ⟨⟨by decide, by decide⟩, Or.inr rfl,
    info_escalation_bypasses_gate "DEV" "t" { filename := "f.py", lineno := 1, name := "g" }
      (fun _ => Option.none) [] [("title", PyVal.vStr "Error"), ("k", PyVal.vStr "x")]
      ⟨by decide, by decide⟩ (Or.inr rfl)⟩

theorem to_json_vInt5 : to_json (PyVal.vInt 5) = "5" := by
  simp [to_json, dumps, serOk, enc, encInt, natChars, natCharsAux, digitOfNat]

theorem dump_name_code :
    dump (.vDict [("name", PyVal.vStr "Error"), ("code", PyVal.vInt 5)])
      = Dumped.dictV [("name", "Error"), ("code", "5")] := by
  simp [dump, to_json_vInt5]
  rfl

/-- C3: calling `info` with extra `{"name": "Error", "code": 5}` escalates
to severity 3, removes the sentinel `name` key before rendering, and the
first (and only structurally possible) remote message carries the `ERROR`
label in its headline and `code = 5` -- with no `name` line -- as its extra
block. -/
theorem info_escalation_message (mode text : String) (fr : Frame)
    (tr : Nat → Option String) (tags : List String) :
    escalate (dump (.vDict [("name", .vStr "Error"), ("code", .vInt 5)])) 1
      = (Dumped.dictV [("code", "5")], 3)
  ∧ extraText (Dumped.dictV [("code", "5")]) = "code = 5"
  ∧ strContains "name" (extraText (Dumped.dictV [("code", "5")])) = false
  ∧ (sendsOf (Report.info mode fr tr text
        (.vDict [("name", .vStr "Error"), ("code", .vInt 5)]) tags false)).head?
      = some (sym 3 ++ " " ++ mode ++ " " ++ typN 3 ++ "\n\n" ++ text ++ "\n\n" ++ "code = 5"
          ++ "\n" ++ "\n#" ++ joinSep " #" (String.toLower mode :: tags))
  ∧ typN 3 = "ERROR" := by
  have hesc : escalate (dump (.vDict [("name", PyVal.vStr "Error"), ("code", PyVal.vInt 5)])) 1
      = (Dumped.dictV [("code", "5")], 3) := by
    rw [dump_name_code]
    decide
  refine ⟨hesc, rfl, by decide, ?_, rfl⟩
  have hrr := reportRun_escalated_sends mode fr tr text
    (dump (.vDict [("name", PyVal.vStr "Error"), ("code", PyVal.vInt 5)])) tags
    (Dumped.dictV [("code", "5")]) hesc
  simp [Report.info, sendsOf, hrr, dumpedTruthy, extraText, joinSep,
    sendWithFallback_head, String.append_assoc]
  rw [show ("\n\ncode = 5\n\n#" : String) = "\n\ncode = 5" ++ "\n\n#" from rfl,
    String.append_assoc]

/-! ## C8 -/

theorem dump_filterMap_eq_filter_map (kvs : List (String × PyVal)) :
    kvs.filterMap (fun p =>
      match p.2 with
      | PyVal.vNone => none
      | _ => some (p.1, to_json p.2)) =
    (kvs.filter (fun p =>
      match p.2 with
      | PyVal.vNone => false
      | _ => true)).map (fun p => (p.1, to_json p.2)) := by
  induction kvs with
  | nil => rfl
  | cons p ps ih =>
    cases hp : p.2 <;> simp [List.filterMap_cons, List.filter_cons, hp, ih]

/-- C8: for a mapping whose values are all JSON-serializable, the
normalizer keeps exactly the non-null entries in input order (so the output
keys are the input keys minus the null-valued ones), string values pass
through `to_json` unchanged, and every non-string value JSON-decodes back to
the original value. -/
theorem dump_normalizer_roundtrip (kvs : List (String × PyVal))
    (hser : ∀ p ∈ kvs, serOk p.2 = true) :
    dumpEntries (dump (.vDict kvs)) =
      (kvs.filter (fun p =>
        match p.2 with
        | PyVal.vNone => false
        | _ => true)).map (fun p => (p.1, to_json p.2))
  ∧ (dumpEntries (dump (.vDict kvs))).map Prod.fst =
      (kvs.filter (fun p =>
        match p.2 with
        | PyVal.vNone => false
        | _ => true)).map Prod.fst
  ∧ (∀ p ∈ kvs, ∀ s, p.2 = PyVal.vStr s → to_json p.2 = s)
  ∧ (∀ p ∈ kvs, p.2 ≠ PyVal.vNone → (∀ s, p.2 ≠ PyVal.vStr s) →
      loads (to_json p.2) = some p.2) := by
  refine ⟨dump_filterMap_eq_filter_map kvs, ?_, ?_, ?_⟩
  · rw [show dumpEntries (dump (.vDict kvs)) = kvs.filterMap (fun p =>
        match p.2 with
        | PyVal.vNone => none
        | _ => some (p.1, to_json p.2)) from rfl]
    rw [dump_filterMap_eq_filter_map kvs, List.map_map]
    rfl
  · intro p _ s hps
    rw [hps]
    rfl
  · intro p hp _ hns
    exact loads_to_json p.2 (hser p hp) hns

theorem dump_normalizer_roundtrip_witness :
    (∀ p ∈ ([("a", PyVal.vInt 1), ("b", PyVal.vNone), ("c", PyVal.vStr "x")] :
        List (String × PyVal)), serOk p.2 = true)
  ∧ (dumpEntries (dump (.vDict [("a", PyVal.vInt 1), ("b", PyVal.vNone), ("c", PyVal.vStr "x")])) =
      (([("a", PyVal.vInt 1), ("b", PyVal.vNone), ("c", PyVal.vStr "x")] :
        List (String × PyVal)).filter (fun p =>
        match p.2 with
        | PyVal.vNone => false
        | _ => true)).map (fun p => (p.1, to_json p.2))
    ∧ (dumpEntries (dump (.vDict [("a", PyVal.vInt 1), ("b", PyVal.vNone), ("c", PyVal.vStr "x")]))).map Prod.fst =
      (([("a", PyVal.vInt 1), ("b", PyVal.vNone), ("c", PyVal.vStr "x")] :
        List (String × PyVal)).filter (fun p =>
        match p.2 with
        | PyVal.vNone => false
        | _ => true)).map Prod.fst
    ∧ (∀ p ∈ ([("a", PyVal.vInt 1), ("b", PyVal.vNone), ("c", PyVal.vStr "x")] :
        List (String × PyVal)), ∀ s, p.2 = PyVal.vStr s → to_json p.2 = s)
    ∧ (∀ p ∈ ([("a", PyVal.vInt 1), ("b", PyVal.vNone), ("c", PyVal.vStr "x")] :
        List (String × PyVal)), p.2 ≠ PyVal.vNone → (∀ s, p.2 ≠ PyVal.vStr s) →
        loads (to_json p.2) = some p.2)) :=
  ⟨by
    intro p hp
    simp only [List.mem_cons, List.not_mem_nil, or_false] at hp
    rcases hp with rfl | rfl | rfl <;> simp [serOk],
   dump_normalizer_roundtrip _ (by
    intro p hp
    simp only [List.mem_cons, List.not_mem_nil, or_false] at hp
    rcases hp with rfl | rfl | rfl <;> simp [serOk])⟩

/-! ## C10 -/

/-- C10: the caller's extra mapping is never mutated.  In the heap model,
an `info` call's normalization + escalation prefix (the only code touching
extra payloads in place) leaves every pre-existing heap cell -- in
particular the caller's dict at `r` -- unchanged: `dump` builds a fresh
cell and the escalation `del` mutates only that fresh cell. -/
theorem caller_mapping_unchanged (h : Heap) (r i : Nat) (hi : i < h.length) :
    (infoEscalH h r).1.getD i [] = h.getD i [] := by
  simp only [infoEscalH, dumpCellH, escalStepH]
  rw [List.getD_eq_getElem?_getD, List.getD_eq_getElem?_getD,
    List.getElem?_set_ne (by omega), List.getElem?_append_left hi,
    ← List.getD_eq_getElem?_getD]

theorem caller_mapping_unchanged_witness :
    (0 : Nat) < ([[("name", PyVal.vStr "Error"), ("k", PyVal.vInt 7)]] : Heap).length
  ∧ (infoEscalH [[("name", PyVal.vStr "Error"), ("k", PyVal.vInt 7)]] 0).1.getD 0 [] =
      ([[("name", PyVal.vStr "Error"), ("k", PyVal.vInt 7)]] : Heap).getD 0 [] :=
  ⟨by decide, caller_mapping_unchanged _ 0 0 (by decide)⟩
